import Mathlib

/-!
Verification development for the axios request-dispatch core.

We shallowly embed the modules `AxiosHeaders` (src/unnamed/part_000),
`Axios#request` (src/unnamed/part_001), `InterceptorManager`
(src/lib/core/InterceptorManager.js), `dispatchRequest`
(src/lib/core/dispatchRequest.js) and `getAdapter`
(src/lib/adapters/adapters.js) as executable Lean definitions, and prove
the spec's claims about them.
-/

/-! ## Character / string helpers (JS `trim` / `toLowerCase` on ASCII) -/

/-- Model of JS `String.prototype.toLowerCase` for the ASCII strings used as
header names (non-ASCII behaviour is out of scope for this repository). -/
def strLower (s : String) : String :=
  String.mk (s.data.map Char.toLower)

/-- Trim a character list at both ends, as JS `String.prototype.trim` does. -/
def trimChars (l : List Char) : List Char :=
  ((l.dropWhile Char.isWhitespace).reverse.dropWhile Char.isWhitespace).reverse

/-- Model of JS `String.prototype.trim` (whitespace = space/tab/CR/LF). -/
def strTrim (s : String) : String :=
  String.mk (trimChars s.data)

/-- Settled promise outcomes and thrown errors are compared structurally. -/
instance {ε α : Type} [DecidableEq ε] [DecidableEq α] :
    DecidableEq (Except ε α) := fun x y =>
  match x, y with
  | .ok a, .ok b =>
    if h : a = b then .isTrue (h ▸ rfl)
    else .isFalse (fun he => h (Except.ok.inj he))
  | .error a, .error b =>
    if h : a = b then .isTrue (h ▸ rfl)
    else .isFalse (fun he => h (Except.error.inj he))
  | .ok _, .error _ => .isFalse (fun he => Except.noConfusion he)
  | .error _, .ok _ => .isFalse (fun he => Except.noConfusion he)

/-! ## AxiosHeaders data model (src/unnamed/part_000)

A JS object used as a header map is modelled as an insertion-ordered
association list.  Header values can be a string, an array of strings, the
sentinel `false`, `null`, or `undefined` (all storable by `normalizeValue`). -/

/-- A header value as stored by `AxiosHeaders`. -/
inductive HVal where
  | str (s : String)
  | list (l : List String)
  | fls
  | nul
  | undef
deriving DecidableEq, Repr

/-- A JS object holding headers: insertion-ordered key/value pairs (property
assignment updates an existing exact key in place, otherwise appends). -/
abbrev Headers := List (String × HVal)

/-- `normalizeHeader` (part_000 line 10): lower-case and trim the name.
A `null` name is handled at the `set` dispatch level (`setStr`). -/
def normalizeHeader (header : String) : String :=
  strLower (strTrim header)

/-- `normalizeValue` (part_000 line 15): `false` and null-ish values are kept;
strings are kept (the `String(value)` coercion is the identity on strings,
and array elements are mapped elementwise). -/
def normalizeValue : HVal → HVal
  | .fls => .fls
  | .nul => .nul
  | .undef => .undef
  | .str s => .str s
  | .list l => .list (l.map id)

/-- The extra characters allowed by `isValidHeaderName`
(part_000 line 39, regex `[-_a-zA-Z0-9^`|~,!#$%&'*+.]`). -/
def headerNameExtraChars : String := "-_^`|~,!#$%&'*+."

/-- A character allowed in a valid single header name. -/
def isValidHeaderNameChar (c : Char) : Bool :=
  (c ≥ 'a' && c ≤ 'z') || (c ≥ 'A' && c ≤ 'Z') || (c ≥ '0' && c ≤ '9') ||
    headerNameExtraChars.data.contains c

/-- `isValidHeaderName` (part_000 line 39): the regex `^[...]+$` is tested
against the trimmed string, so the trimmed string must be non-empty and all
its characters allowed. -/
def isValidHeaderName (s : String) : Bool :=
  !(strTrim s).data.isEmpty && (strTrim s).data.all isValidHeaderNameChar

/-- Modelled from the spec: `utils.findKey` (lib/utils.js, which is not under
src/) performs the case-insensitive key lookup used by the Header Container:
it returns a stored key whose lower-cased form equals the (already
lower-cased) search key, if any. -/
def findKey (hs : Headers) (lkey : String) : Option String :=
  (hs.find? (fun p => strLower p.1 == lkey)).map (fun p => p.1)

/-- Exact-key property read, `self[key]` on a JS object. -/
def lookupVal (hs : Headers) (key : String) : Option HVal :=
  (hs.find? (fun p => p.1 == key)).map (fun p => p.2)

/-- JS property assignment `self[key] = v`: update the existing exact key in
place (insertion order preserved), else append the new key. -/
def objSet : Headers → String → HVal → Headers
  | [], k, v => [(k, v)]
  | (k0, v0) :: rest, k, v =>
    if k0 = k then (k0, v) :: rest else (k0, v0) :: objSet rest k v

/-- The value currently reachable for lower-cased name `lkey` through
`findKey`, if any. -/
def storedAt (hs : Headers) (lkey : String) : Option HVal :=
  match findKey hs lkey with
  | some k => lookupVal hs k
  | none => none

/-- `setHeader` (part_000 lines 99-111), the single name/value write.  The
condition transliterates
`!key || self[key] === undefined || _rewrite === true ||
 (_rewrite === undefined && self[key] !== false)`
and the write target `self[key || _header]`.  `rewrite = none` models the
`undefined` third argument. -/
def setHeader (hs : Headers) (value : HVal) (header : String)
    (rewrite : Option Bool) : Except String Headers :=
  let lHeader := normalizeHeader header
  if lHeader = "" then
    .error "header name must be a non-empty string"
  else
    let key := findKey hs lHeader
    let cur : Option HVal :=
      match key with
      | some k => lookupVal hs k
      | none => none
    if key.isNone || cur == some .undef || rewrite == some true ||
        (rewrite == none && !(cur == some .fls)) then
      .ok (objSet hs (key.getD header) (normalizeValue value))
    else
      .ok hs

/-- Modelled from the spec: `parseHeaders` (lib/helpers/parseHeaders.js, not
under src/) parses a raw multi-line `Name: value` block: each line is split
at the first colon, the name trimmed and lower-cased, the value trimmed, and
lines without a name are skipped. -/
def parseHeadersModel (raw : String) : List (String × HVal) :=
  (raw.splitOn "\n").filterMap (fun line =>
    if line.data.contains ':' then
      let name := normalizeHeader (String.mk (line.data.takeWhile (fun c => c ≠ ':')))
      let value := strTrim (String.mk ((line.data.dropWhile (fun c => c ≠ ':')).drop 1))
      if name = "" then none else some (name, HVal.str value)
    else none)

/-- `setHeaders` (part_000 line 113): apply `setHeader` to each parsed pair. -/
def setHeadersList (hs : Headers) (ps : List (String × HVal))
    (rewrite : Option Bool) : Except String Headers :=
  ps.foldlM (fun acc p => setHeader acc p.2 p.1 rewrite) hs

/-- `AxiosHeaders.set` (part_000 lines 96-128) for a string-or-null first
argument (the plain-object / instance bag form is not needed by the claims):
a `null` name is skipped by `header != null &&`; a string is trimmed in
place by `(header = header.trim())`; a non-empty trimmed string that is not
a valid single header name is parsed as a raw header block; otherwise the
single `setHeader` write runs on the trimmed name. -/
def setStr (hs : Headers) (header : Option String) (value : HVal)
    (rewrite : Option Bool) : Except String Headers :=
  match header with
  | none => .ok hs
  | some h =>
    let t := strTrim h
    if t ≠ "" && !(isValidHeaderName t) then
      setHeadersList hs (parseHeadersModel t) rewrite
    else
      setHeader hs value t rewrite

/-- `AxiosHeaders.get` (part_000 lines 130-158) with no parser argument
(the claims use only the plain read; the token/regexp/function parser
branches return derived views of the same stored value). -/
def getHdr (hs : Headers) (header : String) : Option HVal :=
  let h := normalizeHeader header
  if h = "" then none
  else
    match findKey hs h with
    | some key => lookupVal hs key
    | none => none

/-- `AxiosHeaders.has` (part_000 lines 160-170) with no matcher:
`!!(key && this[key] !== undefined)`. -/
def hasHdr (hs : Headers) (header : String) : Bool :=
  let h := normalizeHeader header
  if h = "" then false
  else
    match findKey hs h with
    | some key => !(lookupVal hs key == some .undef)
    | none => false

/-- `AxiosHeaders.delete` (part_000 lines 172-197) for a single name with no
matcher: `delete self[key]` on the case-insensitively found key; returns the
new map and whether anything was removed. -/
def deleteHdr (hs : Headers) (header : String) : Headers × Bool :=
  let h := normalizeHeader header
  if h = "" then (hs, false)
  else
    match findKey hs h with
    | some key => (hs.filter (fun p => !(p.1 == key)), true)
    | none => (hs, false)

/-- The stored keys, in insertion order. -/
def keysOf (hs : Headers) : List String :=
  hs.map (fun p => p.1)

/-- At most one stored entry per case-insensitive name: all stored keys have
pairwise distinct lower-cased forms. -/
def keysLowerDistinct : List String → Bool
  | [] => true
  | k :: rest => rest.all (fun k2 => !(strLower k2 == strLower k)) && keysLowerDistinct rest

/-- The Header Container invariant of the spec (§3): only one stored entry
may exist per case-insensitive name. -/
def headersWF (hs : Headers) : Bool :=
  keysLowerDistinct (keysOf hs)

/-! ## InterceptorManager (src/lib/core/InterceptorManager.js)

`handlers` is a growable array whose slots are tombstoned (`null`) by
`eject`; `none` models a tombstone. -/

/-- The interceptor registry: `this.handlers`, an array of entries or
`null` tombstones. -/
structure InterceptorManager (α : Type) where
  handlers : List (Option α)
deriving DecidableEq, Repr

/-- `use` (InterceptorManager.js line 19): push the entry and return
`handlers.length - 1`, the index of the pushed slot. -/
def InterceptorManager.use (m : InterceptorManager α) (h : α) :
    InterceptorManager α × Nat :=
  (⟨m.handlers ++ [some h]⟩, m.handlers.length)

/-- `eject` (line 37): `if (this.handlers[id]) this.handlers[id] = null;` —
an out-of-range index reads `undefined` and an already tombstoned slot reads
`null`, both falsy, so both are no-ops. -/
def InterceptorManager.eject (m : InterceptorManager α) (id : Nat) :
    InterceptorManager α :=
  match m.handlers[id]? with
  | some (some _) => ⟨m.handlers.set id none⟩
  | _ => m

/-- `clear` (line 48): replace the whole array. -/
def InterceptorManager.clear (m : InterceptorManager α) : InterceptorManager α :=
  let _ := m
  ⟨[]⟩

/-- `forEach` (line 64) visits exactly the non-`null` slots in order; this is
the list of entries it passes to the callback. -/
def InterceptorManager.liveHandlers (m : InterceptorManager α) : List α :=
  m.handlers.filterMap id

/-! ## Adapter resolution (src/lib/adapters/adapters.js) -/

/-- One candidate in the list given to `getAdapter`: a callable adapter, the
`null` sentinel (not available in the build), the `false` sentinel (not
supported by the environment), or a name string to look up. -/
inductive Candidate (A : Type) where
  | fn (f : A)
  | nullc
  | falsec
  | name (s : String)
deriving DecidableEq, Repr

/-- The error value thrown by `getAdapter`: an `AxiosError(message, code?)`. -/
structure AxiosErrorM where
  message : String
  code : Option String
deriving DecidableEq, Repr

/-- The `knownAdapters` record: name → adapter function or `null`
(e.g. the http adapter is `null` in a browser build).  An absent name is
`undefined`. -/
def lookupKnown (known : List (String × Option A)) (s : String) :
    Option (Option A) :=
  (known.find? (fun p => p.1 == s)).map (fun p => p.2)

/-- `adapter ${id} is (not supported by the environment | not available in
the build)` — one line of the aggregate rejection report; the `Bool` is
`state === false`. -/
def reasonText (p : String × Bool) : String :=
  "adapter " ++ p.1 ++ " " ++
    (if p.2 then "is not supported by the environment"
     else "is not available in the build")

/-- `renderReason` (adapters.js line 26). -/
def renderReason (r : String) : String := "- " ++ r

/-- The `ERR_NOT_SUPPORT` message built when the candidate walk exhausts
(adapters.js lines 63-77); `len` is the original candidate count. -/
def notSupportMsg (len : Nat) (reasons : List (String × Bool)) : String :=
  let rs := reasons.map reasonText
  let s :=
    if len ≠ 0 then
      if rs.length > 1 then
        "since :\n" ++ String.intercalate "\n" (rs.map renderReason)
      else " " ++ renderReason (rs.headD "")
    else "as no adapter specified"
  "There is no suitable adapter to dispatch the request " ++ s

/-- The candidate walk of `getAdapter` (adapters.js lines 40-61): `i` is the
loop index, `reasons` the `rejectedReasons` record in insertion order
(`(id or #i, state === false)`; duplicate ids cannot arise in the claims'
inputs, so the record is modelled as an append-only list). -/
def getAdapterGo (known : List (String × Option A)) (len : Nat) :
    List (Candidate A) → Nat → List (String × Bool) → Except AxiosErrorM A
  | [], _, reasons =>
    .error ⟨notSupportMsg len reasons, some "ERR_NOT_SUPPORT"⟩
  | c :: rest, i, reasons =>
    match c with
    | .fn f => .ok f
    | .nullc => getAdapterGo known len rest (i + 1)
        (reasons ++ [("#" ++ toString i, false)])
    | .falsec => getAdapterGo known len rest (i + 1)
        (reasons ++ [("#" ++ toString i, true)])
    | .name s =>
      match lookupKnown known (strLower s) with
      | none => .error ⟨"Unknown adapter '" ++ s ++ "'", none⟩
      | some (some f) => .ok f
      | some none => getAdapterGo known len rest (i + 1)
        (reasons ++ [(s, false)])

/-- `getAdapter` (adapters.js lines 31-81) on an already-wrapped candidate
list. -/
def getAdapter (known : List (String × Option A)) (cands : List (Candidate A)) :
    Except AxiosErrorM A :=
  getAdapterGo known cands.length cands 0 []

/-! ## dispatchRequest (src/lib/core/dispatchRequest.js)

The cancellation token / abort signal are external mutable state polled at
the checkpoints; a `CancelState` is the snapshot observed at one checkpoint
(`pre` at entry, `post` after the adapter settles). -/

/-- Snapshot of `config.cancelToken` / `config.signal`:
`tokenRequested` = a cancel token is present and already signalled,
`signalAborted` = an abort signal is present and already aborted. -/
structure CancelState where
  tokenRequested : Bool
  signalAborted : Bool
deriving DecidableEq, Repr

/-- The `pre` snapshot of a request that has not been cancelled. -/
def noCancel : CancelState := ⟨false, false⟩

/-- A settled response: transformed body plus normalized headers (status and
the rest of the record do not participate in the claims). -/
structure Response where
  data : HVal
  headers : Headers
deriving DecidableEq, Repr

/-- The rejection reason delivered by an adapter: `isCanceled` models
`isCancel(reason)` (the `__CANCEL__` brand) and `response` the optional
partial response carried by a transport error. -/
structure AdapterReason where
  isCanceled : Bool
  response : Option Response
deriving DecidableEq, Repr

/-- A failure escaping `dispatchRequest`: a `CanceledError` (from either
cancellation checkpoint) or the adapter's (possibly updated) reason. -/
inductive DErr where
  | canceled
  | reason (r : AdapterReason)
deriving DecidableEq, Repr

/-- `throwIfCancellationRequested` (dispatchRequest.js lines 16-24): the
token's `throwIfRequested` and the aborted-signal check both raise a
`CanceledError`. -/
def throwIfCancellationRequested (s : CancelState) : Except DErr Unit :=
  if s.tokenRequested then .error .canceled
  else if s.signalAborted then .error .canceled
  else .ok ()

/-- The slice of the request config that `dispatchRequest` reads and
mutates. -/
structure Cfg where
  method : String
  headers : Headers
  data : HVal
deriving DecidableEq, Repr

/-- The observable steps of `dispatchRequest`, in execution order, used to
state the "before any transform / default / adapter" claims. -/
inductive DEvent where
  | transformRequest
  | setContentType
  | resolveAdapter
  | invokeAdapter
  | transformResponse
deriving DecidableEq, Repr

/-- `config.headers.setContentType('application/x-www-form-urlencoded',
false)` (dispatchRequest.js line 48).  The accessor calls
`set('Content-Type', value, false)`; the name is a non-empty literal so the
`setHeader` name check cannot fail and the error branch is unreachable. -/
def defaultCT (hs : Headers) : Headers :=
  match setHeader hs (.str "application/x-www-form-urlencoded")
      "Content-Type" (some false) with
  | .ok h => h
  | .error _ => hs

/-- The outcome of `dispatchRequest`: the settled promise value, the config
as left behind by the in-place mutations, and the step trace. -/
structure DispatchOut where
  result : Except DErr Response
  config : Cfg
  events : List DEvent
deriving Repr

/-- The config as it stands right before the adapter is invoked
(dispatchRequest.js lines 38-49): request data transformed in place, then
the content-type default applied for the body-bearing verbs. -/
def preparedCfg (trReq : HVal → Headers → HVal) (cfg : Cfg) : Cfg :=
  let cfg1 : Cfg := { cfg with data := trReq cfg.data cfg.headers }
  if ["post", "put", "patch"].contains cfg1.method then
    { cfg1 with headers := defaultCT cfg1.headers }
  else cfg1

/-- `dispatchRequest` (dispatchRequest.js lines 32-84).  `pre`/`post` are the
cancellation snapshots at the entry checkpoint and at the two post-adapter
checkpoints; `trReq`/`trResp` model `transformData` over
`config.transformRequest` / `config.transformResponse` (transformData.js is
not under src/; per the spec's transform contract each chain maps
`(data, headers)` to new data); `adapter` is the resolved adapter's settled
outcome.  `AxiosHeaders.from` on an already-normalized container is the
identity. -/
def dispatchRequest (pre post : CancelState)
    (trReq trResp : HVal → Headers → HVal)
    (adapter : Cfg → Except AdapterReason Response)
    (cfg : Cfg) : DispatchOut :=
  match throwIfCancellationRequested pre with
  | .error e => ⟨.error e, cfg, []⟩
  | .ok _ =>
    let cfg2 := preparedCfg trReq cfg
    let ev := [DEvent.transformRequest] ++
      (if ["post", "put", "patch"].contains cfg.method then
        [DEvent.setContentType] else []) ++
      [DEvent.resolveAdapter, DEvent.invokeAdapter]
    match adapter cfg2 with
    | .ok resp =>
      match throwIfCancellationRequested post with
      | .error e => ⟨.error e, cfg2, ev⟩
      | .ok _ =>
        ⟨.ok { resp with data := trResp resp.data resp.headers }, cfg2,
          ev ++ [DEvent.transformResponse]⟩
    | .error reason =>
      if reason.isCanceled then ⟨.error (.reason reason), cfg2, ev⟩
      else
        match throwIfCancellationRequested post with
        | .error e => ⟨.error e, cfg2, ev⟩
        | .ok _ =>
          match reason.response with
          | some r =>
            ⟨.error (.reason { reason with
                response := some { r with data := trResp r.data r.headers } }),
              cfg2, ev ++ [DEvent.transformResponse]⟩
          | none => ⟨.error (.reason reason), cfg2, ev⟩

/-! ## Axios#request orchestration (src/unnamed/part_001, lines 103-210)

The chain build and the two execution paths are modelled generically over
the config type `C`, the error type `E` and the response type `R`.  A JS
promise's settled outcome is `Except E ·`; a handler that throws is a
function into `Except E ·`. -/

/-- One registered request interceptor entry
(`{fulfilled, rejected, synchronous, runWhen}` from `use`). -/
structure ReqInterceptor (C E : Type) where
  fulfilled : C → Except E C
  rejected : E → Except E C
  synchronous : Bool
  runWhen : Option (C → Bool)

/-- One registered response interceptor entry. -/
structure RespInterceptor (R E : Type) where
  fulfilled : R → Except E R
  rejected : E → Except E R

/-- The `runWhen` gate (part_001 line 110): skip the interceptor exactly
when `runWhen` is a function and returns `false` on the config. -/
def runWhenAllows (it : ReqInterceptor C E) (cfg : C) : Bool :=
  match it.runWhen with
  | some p => p cfg
  | none => true

/-- The request interceptors included for `cfg`: live entries whose
`runWhen` does not exclude them, in registration order. -/
def includedReq (l : List (Option (ReqInterceptor C E))) (cfg : C) :
    List (ReqInterceptor C E) :=
  (l.filterMap id).filter (fun it => runWhenAllows it cfg)

/-- The chain-build loop of `Axios#request` (part_001 lines 108-120):
`forEach` over live entries, `unshift`-ing each included pair onto the chain
and AND-ing the `synchronous` flag. -/
def buildReqGo (cfg : C) :
    List (Option (ReqInterceptor C E)) →
    List (ReqInterceptor C E) × Bool → List (ReqInterceptor C E) × Bool
  | [], acc => acc
  | none :: rest, acc => buildReqGo cfg rest acc
  | some it :: rest, (chain, flag) =>
    if runWhenAllows it cfg then
      buildReqGo cfg rest (it :: chain, flag && it.synchronous)
    else
      buildReqGo cfg rest (chain, flag)

/-- `requestInterceptorChain` and `synchronousRequestInterceptors` as built
by `Axios#request` (initial flag `true`, initial chain empty). -/
def buildReqChain (l : List (Option (ReqInterceptor C E))) (cfg : C) :
    List (ReqInterceptor C E) × Bool :=
  buildReqGo cfg l ([], true)

/-- The response-chain build loop (part_001 lines 127-129): `forEach` over
live entries, `push`-ing each pair in registration order. -/
def buildRespChain (l : List (Option (RespInterceptor R E))) :
    List (RespInterceptor R E) :=
  l.foldl (fun acc o => match o with
    | some it => acc ++ [it]
    | none => acc) []

/-- C4.  For every manager and every index `i` holding a live entry (the
final conjunct shows that every index `use` returns addresses a slot of
exactly this shape when it is issued): after `eject i`, the array keeps its
length and slot `i` is tombstoned to `null`, so `forEach` — which visits
exactly the non-`null` slots in order — never invokes the ejected entry's
handlers and iterates the remaining live entries exactly as before, around
the hole; every other slot `j ≠ i` (in particular the live successors of
`i`) is untouched, so removal tombstones the slot rather than renumbering
and previously issued indices stay valid; a subsequent `eject i` is a
no-op; and `eject` of a never-issued index (≥ the array length) is also a
no-op. -/
theorem interceptorManager_eject_tombstone {α : Type}
    (m : InterceptorManager α) (h : α) (i j k : Nat)
    (hi : m.handlers[i]? = some (some h)) (hj : j ≠ i)
    (hk : m.handlers.length ≤ k) :
    (m.eject i).handlers.length = m.handlers.length
    ∧ (m.eject i).handlers[i]? = some none
    ∧ (m.eject i).handlers[j]? = m.handlers[j]?
    ∧ (m.eject i).liveHandlers
        = (m.handlers.take i).filterMap id
          ++ (m.handlers.drop (i + 1)).filterMap id
    ∧ (m.eject i).eject i = m.eject i
    ∧ m.eject k = m
    ∧ ((m.use h).1.handlers)[(m.use h).2]? = some (some h) := by
  have hlt : i < m.handlers.length := (List.getElem?_eq_some_iff.mp hi).1
  have heject : m.eject i = ⟨m.handlers.set i none⟩ := by
    simp only [InterceptorManager.eject, hi]
  have hslot : (m.handlers.set i none)[i]? = some none :=
    List.getElem?_set_self hlt
  refine ⟨?_, ?_, ?_, ?_, ?_, ?_, ?_⟩
  · rw [heject]
    simp
  · rw [heject]
    exact hslot
  · rw [heject]
    exact List.getElem?_set_ne (fun he => hj he.symm)
  · rw [heject]
    simp only [InterceptorManager.liveHandlers]
    rw [List.set_eq_take_cons_drop _ hlt]
    simp
  · rw [heject]
    simp only [InterceptorManager.eject, hslot]
  · have hnone : m.handlers[k]? = none := List.getElem?_eq_none hk
    simp only [InterceptorManager.eject, hnone]
  · simp only [InterceptorManager.use]
    exact List.getElem?_concat_length _ _

/-- Witness for C4: ejecting the middle slot of a three-entry manager — the
live successor keeps its index and iteration skips only the ejected
entry. -/
theorem interceptorManager_eject_tombstone_witness :
    ([some 1, some 2, some 3] : List (Option Nat))[1]? = some (some 2)
    ∧ ((InterceptorManager.mk [some (1 : Nat), some 2, some 3]).eject
        1).liveHandlers = [1, 3]
    ∧ ((InterceptorManager.mk [some (1 : Nat), some 2, some 3]).eject
        1).handlers[2]? = some (some 3) := by
  refine ⟨by decide, ?_, ?_⟩
  · have hv := (interceptorManager_eject_tombstone
      (InterceptorManager.mk [some 1, some 2, some 3]) 2 1 2 5
      (by decide) (by decide) (by decide)).2.2.2.1
    rw [hv]
    decide
  · have hv := (interceptorManager_eject_tombstone
      (InterceptorManager.mk [some 1, some 2, some 3]) 2 1 2 5
      (by decide) (by decide) (by decide)).2.2.1
    rw [hv]
    decide

/-! ## C5: adapter resolution order and unknown-name fatality -/

/-- C5.  Sentinel candidates (`null` = not available in the build, `false` =
not supported by the environment) are recorded as rejection reasons and the
walk continues, so `[null, false, realAdapter]` resolves to `realAdapter`;
a name that matches no known builtin raises `AxiosError` with message
`Unknown adapter '<name>'` immediately — with no code, in particular not the
aggregate `ERR_NOT_SUPPORT` — even when later candidates would resolve. -/
theorem getAdapter_resolution {A : Type} (known : List (String × Option A))
    (a : A) (s : String) (rest : List (Candidate A))
    (hunknown : lookupKnown known (strLower s) = none) :
    getAdapter known [Candidate.nullc, Candidate.falsec, Candidate.fn a] = .ok a
    ∧ getAdapter known (Candidate.name s :: rest)
        = .error ⟨"Unknown adapter '" ++ s ++ "'", none⟩ := by
  constructor
  · rfl
  · simp only [getAdapter, getAdapterGo, hunknown]

/-- Witness for C5 with a concrete registry and an unknown name followed by
a resolvable candidate. -/
theorem getAdapter_resolution_witness :
    lookupKnown [("xhr", some (7 : Nat))] (strLower "bogus") = none
    ∧ getAdapter [("xhr", some (7 : Nat))]
        [Candidate.nullc, Candidate.falsec, Candidate.fn 5] = .ok 5
    ∧ getAdapter [("xhr", some (7 : Nat))] [Candidate.name "bogus", Candidate.fn 9]
        = .error ⟨"Unknown adapter 'bogus'", none⟩ :=
  ⟨by decide,
    (getAdapter_resolution [("xhr", some 7)] 5 "bogus" [Candidate.fn 9] (by decide)).1,
    (getAdapter_resolution [("xhr", some 7)] 5 "bogus" [Candidate.fn 9] (by decide)).2⟩

/-! ## C7: cancellation pre-check precedes every other step -/

/-- C7.  If the config's cancel token is already signalled, or its abort
signal is already aborted, at entry, `dispatchRequest` fails with a
`CanceledError`, the config (headers, data) is untouched, and the step trace
is empty: no request-data transform runs, no content-type default is set,
and no adapter is resolved or invoked. -/
theorem dispatchRequest_precheck_cancels (sb tk : Bool) (post : CancelState)
    (trReq trResp : HVal → Headers → HVal)
    (adapter : Cfg → Except AdapterReason Response) (cfg : Cfg) :
    dispatchRequest ⟨true, sb⟩ post trReq trResp adapter cfg
      = ⟨.error .canceled, cfg, []⟩
    ∧ dispatchRequest ⟨tk, true⟩ post trReq trResp adapter cfg
      = ⟨.error .canceled, cfg, []⟩ := by
  constructor
  · rfl
  · cases tk <;> rfl

/-! ## C8: rejection handling after the adapter settles -/

/-- C8.  When the adapter's result rejects: a cancellation reason is
re-raised unchanged, with no post-adapter cancellation check (the outcome
ignores the `post` snapshot) and no response transform; a non-cancellation
reason first re-runs the cancellation check, so a late cancellation wins as
a `CanceledError`; otherwise a carried partial response has its data passed
through the response transform chain (and its headers kept normalized)
before the rejection is propagated.  The first equation gives the settled
result, the second shows the response transform runs exactly in the last
case (for a carried partial response). -/
theorem dispatchRequest_rejection (post : CancelState)
    (trReq trResp : HVal → Headers → HVal)
    (reason : AdapterReason) (cfg : Cfg) :
    (dispatchRequest noCancel post trReq trResp (fun _ => .error reason) cfg).result
      = (if reason.isCanceled then .error (.reason reason)
         else if post.tokenRequested || post.signalAborted then
           .error .canceled
         else .error (.reason { reason with
           response := reason.response.map
             (fun r => { r with data := trResp r.data r.headers }) }))
    ∧ (dispatchRequest noCancel post trReq trResp (fun _ => .error reason) cfg).events
      = [DEvent.transformRequest]
        ++ (if ["post", "put", "patch"].contains cfg.method then
              [DEvent.setContentType] else [])
        ++ [DEvent.resolveAdapter, DEvent.invokeAdapter]
        ++ (if !reason.isCanceled
              && !(post.tokenRequested || post.signalAborted)
              && reason.response.isSome then
              [DEvent.transformResponse] else []) := by
  obtain ⟨rc, rr⟩ := reason
  obtain ⟨ptk, psb⟩ := post
  cases rc <;> cases ptk <;> cases psb <;> cases rr <;>
    simp [dispatchRequest, throwIfCancellationRequested, noCancel]

/-! ## Header container lemmas -/

/-- `findKey` only looks at the stored keys. -/
theorem findKey_eq_keys (hs : Headers) (l : String) :
    findKey hs l = (keysOf hs).find? (fun x => strLower x == l) := by
  simp only [findKey, keysOf, List.find?_map]
  rfl

/-- `objSet` keeps the key list when the key is present, else appends it. -/
theorem keysOf_objSet (hs : Headers) (k : String) (v : HVal) :
    keysOf (objSet hs k v)
      = if k ∈ keysOf hs then keysOf hs else keysOf hs ++ [k] := by
  induction hs with
  | nil => simp [objSet, keysOf]
  | cons p rest ih =>
    obtain ⟨k0, v0⟩ := p
    by_cases hk : k0 = k
    · subst hk
      simp [objSet, keysOf]
    · simp only [objSet, if_neg hk, keysOf, List.map_cons] at ih ⊢
      rw [ih]
      by_cases hm : k ∈ rest.map (fun p => p.1)
      · simp [hm, Ne.symm hk]
      · simp [hm, Ne.symm hk]

/-- `objSet` on an absent key appends the pair. -/
theorem objSet_append_of_not_mem (hs : Headers) (k : String) (v : HVal)
    (hnot : ∀ p ∈ hs, p.1 ≠ k) : objSet hs k v = hs ++ [(k, v)] := by
  induction hs with
  | nil => rfl
  | cons p rest ih =>
    obtain ⟨k0, v0⟩ := p
    have hk : k0 ≠ k := hnot (k0, v0) (by simp)
    simp only [objSet, if_neg hk, List.cons_append, List.cons.injEq, true_and]
    exact ih (fun q hq => hnot q (by simp [hq]))

/-- After `objSet`, the exact-key read returns the written value. -/
theorem lookupVal_objSet_self (hs : Headers) (k : String) (v : HVal) :
    lookupVal (objSet hs k v) k = some v := by
  induction hs with
  | nil => simp [objSet, lookupVal]
  | cons p rest ih =>
    obtain ⟨k0, v0⟩ := p
    by_cases hk : k0 = k
    · subst hk
      simp [objSet, lookupVal]
    · simp only [objSet, if_neg hk]
      simp only [lookupVal, List.find?_cons] at ih ⊢
      have : ((k0, v0).1 == k) = false := by simpa using hk
      simp [this, ih]

/-- What a successful `findKey` guarantees: the returned key lower-cases to
the search key and has a stored value (reachable by the exact-key read,
since no earlier entry can carry the same exact key). -/
theorem findKey_some_spec (hs : Headers) (l k : String)
    (h : findKey hs l = some k) :
    strLower k = l ∧ ∃ v, lookupVal hs k = some v := by
  induction hs with
  | nil => simp [findKey] at h
  | cons p rest ih =>
    obtain ⟨k0, v0⟩ := p
    by_cases h0 : strLower k0 = l
    · have hk : k = k0 := by
        simp [findKey, List.find?_cons, h0] at h
        exact h.symm
      subst hk
      exact ⟨h0, v0, by simp [lookupVal, List.find?_cons]⟩
    · have hbeq : (strLower (k0, v0).1 == l) = false := by simpa using h0
      have hrest : findKey rest l = some k := by
        simpa [findKey, List.find?_cons, hbeq] using h
      obtain ⟨hlow, v, hv⟩ := ih hrest
      refine ⟨hlow, v, ?_⟩
      have hne : ((k0, v0).1 == k) = false := by
        simp only [beq_eq_false_iff_ne, ne_eq]
        intro he
        exact h0 (by rw [he, hlow])
      simpa [lookupVal, List.find?_cons, hne] using hv

/-- A failed `findKey` means no stored key lower-cases to the search key. -/
theorem findKey_none_iff (hs : Headers) (l : String) :
    findKey hs l = none ↔ ∀ p ∈ hs, strLower p.1 ≠ l := by
  simp [findKey, List.find?_eq_none]

/-- `findKey` is determined by the key list. -/
theorem findKey_congr_keys (hs1 hs2 : Headers) (l : String)
    (h : keysOf hs1 = keysOf hs2) : findKey hs1 l = findKey hs2 l := by
  rw [findKey_eq_keys, findKey_eq_keys, h]

/-- Exact-key read of a freshly appended key. -/
theorem lookupVal_append_self (hs : Headers) (k : String) (v : HVal)
    (hnot : ∀ p ∈ hs, p.1 ≠ k) : lookupVal (hs ++ [(k, v)]) k = some v := by
  have hfind : hs.find? (fun p => p.1 == k) = none := by
    simp only [List.find?_eq_none, beq_eq_false_iff_ne]
    intro p hp
    simpa using hnot p hp
  simp [lookupVal, List.find?_append, hfind]

/-- The config left behind by `dispatchRequest` (when the entry check
passes) is the prepared config, whatever the adapter and the later
checkpoints do. -/
theorem dispatchRequest_config_eq (post : CancelState)
    (trReq trResp : HVal → Headers → HVal)
    (adapter : Cfg → Except AdapterReason Response) (cfg : Cfg) :
    (dispatchRequest noCancel post trReq trResp adapter cfg).config
      = preparedCfg trReq cfg := by
  rcases post with ⟨ptk, psb⟩
  cases hA : adapter (preparedCfg trReq cfg) with
  | ok resp =>
    cases ptk <;> cases psb <;>
      simp [dispatchRequest, throwIfCancellationRequested, noCancel, hA]
  | error reason =>
    rcases reason with ⟨rc, rr⟩
    cases rc <;> cases ptk <;> cases psb <;> cases rr <;>
      simp [dispatchRequest, throwIfCancellationRequested, noCancel, hA]

/-- The headers of the prepared config. -/
theorem preparedCfg_headers (trReq : HVal → Headers → HVal) (cfg : Cfg) :
    (preparedCfg trReq cfg).headers
      = (if ["post", "put", "patch"].contains cfg.method then
          defaultCT cfg.headers else cfg.headers) := by
  simp [preparedCfg]
  split <;> simp_all

/-- The content-type write of `defaultCT` when no entry exists. -/
theorem defaultCT_of_absent (hs : Headers)
    (habs : findKey hs "content-type" = none) :
    defaultCT hs = hs ++ [("Content-Type", HVal.str "application/x-www-form-urlencoded")] := by
  have hne : ∀ p ∈ hs, p.1 ≠ "Content-Type" := by
    intro p hp he
    have := (findKey_none_iff hs "content-type").mp habs p hp
    rw [he] at this
    exact this rfl
  have hnorm : normalizeHeader "Content-Type" = "content-type" := rfl
  simp only [defaultCT, setHeader, hnorm]
  rw [if_neg (by decide), habs]
  simp only [Option.isNone_none, Bool.true_or, if_pos]
  rw [Option.getD_none, objSet_append_of_not_mem hs _ _ hne]
  rfl

/-- `defaultCT` keeps the container unchanged when a non-`undefined` value
is already stored for content-type (the `rewrite = false` gate). -/
theorem defaultCT_of_present (hs : Headers) (p : HVal)
    (hstored : storedAt hs "content-type" = some p) (hp : p ≠ HVal.undef) :
    defaultCT hs = hs := by
  have hnorm : normalizeHeader "Content-Type" = "content-type" := rfl
  cases hk : findKey hs "content-type" with
  | none => rw [storedAt, hk] at hstored; simp at hstored
  | some k =>
    have hcur : lookupVal hs k = some p := by
      rw [storedAt, hk] at hstored
      exact hstored
    simp only [defaultCT, setHeader, hnorm]
    rw [if_neg (by decide), hk]
    simp [hcur, hp]

/-! ## C9: content-type defaulting for body-bearing verbs -/

/-- C9.  For a body-bearing method (post/put/patch), `dispatchRequest`
defaults `Content-Type` to `application/x-www-form-urlencoded` only when no
entry exists for that header; an explicit prior value — including a stored
`false` suppression — is kept unchanged, because the `set` call passes
`rewrite = false`, which writes only when the key is absent or its stored
value is `undefined`; for every other method the headers are untouched. -/
theorem dispatchRequest_contentType_default (post : CancelState)
    (trReq trResp : HVal → Headers → HVal)
    (adapter : Cfg → Except AdapterReason Response) (cfg : Cfg) (p : HVal) :
    (["post", "put", "patch"].contains cfg.method = true →
      findKey cfg.headers "content-type" = none →
      getHdr (dispatchRequest noCancel post trReq trResp adapter cfg).config.headers
          "Content-Type"
        = some (.str "application/x-www-form-urlencoded"))
    ∧ (["post", "put", "patch"].contains cfg.method = true →
      storedAt cfg.headers "content-type" = some p → p ≠ HVal.undef →
      (dispatchRequest noCancel post trReq trResp adapter cfg).config.headers
        = cfg.headers)
    ∧ (["post", "put", "patch"].contains cfg.method = false →
      (dispatchRequest noCancel post trReq trResp adapter cfg).config.headers
        = cfg.headers) := by
  rw [dispatchRequest_config_eq, preparedCfg_headers]
  refine ⟨?_, ?_, ?_⟩
  · intro hb habs
    rw [if_pos hb, defaultCT_of_absent cfg.headers habs]
    have hnorm : normalizeHeader "Content-Type" = "content-type" := rfl
    have hfind : cfg.headers.find? (fun p => strLower p.1 == "content-type") = none := by
      have h2 := habs
      rw [findKey] at h2
      exact Option.map_eq_none'.mp h2
    have hne : ∀ q ∈ cfg.headers, q.1 ≠ "Content-Type" := by
      intro q hq he
      have := (findKey_none_iff cfg.headers "content-type").mp habs q hq
      rw [he] at this
      exact this rfl
    simp only [getHdr, hnorm]
    rw [if_neg (by decide)]
    have hfk : findKey (cfg.headers
        ++ [("Content-Type", HVal.str "application/x-www-form-urlencoded")])
        "content-type" = some "Content-Type" := by
      simp [findKey, List.find?_append, hfind]
      decide
    rw [hfk]
    exact lookupVal_append_self _ _ _ hne
  · intro hb hstored hp
    rw [if_pos hb, defaultCT_of_present cfg.headers p hstored hp]
  · intro hb
    rw [hb]
    simp

/-- Witness for C9: a post request with no prior content-type gets the
urlencoded default; a post request with a stored `false` suppression and a
get request keep their headers. -/
theorem dispatchRequest_contentType_default_witness :
    getHdr (dispatchRequest noCancel noCancel (fun d _ => d) (fun d _ => d)
        (fun _ => .ok ⟨HVal.str "ok", []⟩) ⟨"post", [], HVal.nul⟩).config.headers
        "Content-Type"
      = some (.str "application/x-www-form-urlencoded")
    ∧ (dispatchRequest noCancel noCancel (fun d _ => d) (fun d _ => d)
        (fun _ => .ok ⟨HVal.str "ok", []⟩)
        ⟨"post", [("Content-Type", HVal.fls)], HVal.nul⟩).config.headers
      = [("Content-Type", HVal.fls)]
    ∧ (dispatchRequest noCancel noCancel (fun d _ => d) (fun d _ => d)
        (fun _ => .ok ⟨HVal.str "ok", []⟩)
        ⟨"get", [("X", HVal.str "y")], HVal.nul⟩).config.headers
      = [("X", HVal.str "y")] :=
  ⟨(dispatchRequest_contentType_default noCancel (fun d _ => d) (fun d _ => d)
      (fun _ => .ok ⟨HVal.str "ok", []⟩) ⟨"post", [], HVal.nul⟩ HVal.nul).1
      (by decide) (by decide),
   (dispatchRequest_contentType_default noCancel (fun d _ => d) (fun d _ => d)
      (fun _ => .ok ⟨HVal.str "ok", []⟩) ⟨"post", [("Content-Type", HVal.fls)], HVal.nul⟩
      HVal.fls).2.1 (by decide) (by decide) (by decide),
   (dispatchRequest_contentType_default noCancel (fun d _ => d) (fun d _ => d)
      (fun _ => .ok ⟨HVal.str "ok", []⟩) ⟨"get", [("X", HVal.str "y")], HVal.nul⟩
      HVal.nul).2.2 (by decide)⟩

/-! ## C2: the `set` overwrite policy -/

/-- C2 counterexample.  The claim says a set call writes exactly when
`rewrite` is `true`, or `rewrite` is unset and the stored value is not
`false`, or no entry exists for the name.  Here an entry for `X` exists
(stored value `undefined`) and `rewrite` is `false`, so the claimed
condition does not hold — yet the code writes, because the source condition
also fires on `self[key] === undefined`. -/
theorem setHeader_overwrite_policy_counterexample :
    setHeader [("X", HVal.undef)] (HVal.str "b") "X" (some false)
      = .ok [("X", HVal.str "b")] := by decide

/-- C2 (amended).  A set call writes its value exactly when the rewrite
argument is `true`, or when rewrite is unset and the currently stored value
is not `false`, or when the name is absent in the `has` sense — no key
exists, or the stored value is `undefined`.  In particular
`set('X','a'); set('X','b')` with no rewrite argument leaves `'b'` stored,
while `set('X', false); set('X','b')` with no rewrite argument leaves the
stored value `false`. -/
theorem setHeader_overwrite_policy (hs : Headers) (v : HVal) (h : String)
    (r : Option Bool) (hname : normalizeHeader h ≠ "") :
    (setHeader hs v h r = .ok (
      if r = some true
         ∨ (r = none ∧ storedAt hs (normalizeHeader h) ≠ some HVal.fls)
         ∨ hasHdr hs h = false then
        objSet hs ((findKey hs (normalizeHeader h)).getD h) (normalizeValue v)
      else hs))
    ∧ (setStr [] (some "X") (HVal.str "a") none).bind
        (fun hs2 => setStr hs2 (some "X") (HVal.str "b") none)
      = .ok [("X", HVal.str "b")]
    ∧ (setStr [] (some "X") HVal.fls none).bind
        (fun hs2 => setStr hs2 (some "X") (HVal.str "b") none)
      = .ok [("X", HVal.fls)] := by
  refine ⟨?_, by decide, by decide⟩
  cases hk : findKey hs (normalizeHeader h) with
  | none =>
    have hhas : hasHdr hs h = false := by
      simp only [hasHdr]
      rw [if_neg hname, hk]
    rw [if_pos (Or.inr (Or.inr hhas))]
    simp only [setHeader]
    rw [if_neg hname]
    simp [hk]
  | some k =>
    cases hv : lookupVal hs k with
    | none =>
      obtain ⟨_, w, hw⟩ := findKey_some_spec hs _ k hk
      rw [hv] at hw
      exact absurd hw (by simp)
    | some cur =>
      have hstored : storedAt hs (normalizeHeader h) = some cur := by
        simp [storedAt, hk, hv]
      have hhas : hasHdr hs h = !(cur == HVal.undef) := by
        simp only [hasHdr]
        rw [if_neg hname, hk]
        simp [hv]
      by_cases hu : cur = HVal.undef
      · subst hu
        simp [setHeader, hname, hk, hv, hstored, hhas]
      · by_cases hf : cur = HVal.fls
        · subst hf
          rcases r with _ | b
          · simp [setHeader, hname, hk, hv, hstored, hhas]
          · cases b <;> simp [setHeader, hname, hk, hv, hstored, hhas]
        · rcases r with _ | b
          · simp [setHeader, hname, hk, hv, hstored, hhas, hu, hf]
          · cases b <;> simp [setHeader, hname, hk, hv, hstored, hhas, hu, hf]

/-- Witness for C2 (amended): overwrite of a plain value with rewrite
unset. -/
theorem setHeader_overwrite_policy_witness :
    normalizeHeader "X" ≠ ""
    ∧ setHeader [("X", HVal.str "a")] (HVal.str "b") "X" none
      = .ok [("X", HVal.str "b")] :=
  ⟨by decide, by
    have h := (setHeader_overwrite_policy [("X", HVal.str "a")] (HVal.str "b")
      "X" none (by decide)).1
    rw [h]
    decide⟩

/-! ## C10: empty header names in `set` -/

/-- C10 counterexample.  The claim says `set` throws whenever the single
name argument normalizes to an empty string, listing `null` among the
inputs; but the `header != null &&` guard makes a `null` name a silent
no-op — nothing is stored and nothing is thrown. -/
theorem setStr_null_name_counterexample :
    setStr [] none (HVal.str "v") none = .ok [] := rfl

/-- C10 (amended).  For a single name/value `set` whose name is a string
that is empty or whitespace-only, the call throws
`header name must be a non-empty string` and stores nothing; a `null` name
is silently skipped and stores nothing. -/
theorem setStr_empty_name_throws (hs : Headers) (v : HVal) (r : Option Bool)
    (h : String) (hh : strTrim h = "") :
    setStr hs (some h) v r = .error "header name must be a non-empty string"
    ∧ setStr hs none v r = .ok hs := by
  constructor
  · have hnorm : normalizeHeader "" = "" := rfl
    simp [setStr, hh, setHeader, hnorm]
  · rfl

/-- Witness for C10 (amended) on a whitespace-only name. -/
theorem setStr_empty_name_throws_witness :
    strTrim "  " = ""
    ∧ setStr [("A", HVal.str "x")] (some "  ") (HVal.str "v") none
      = .error "header name must be a non-empty string" :=
  ⟨by decide,
    (setStr_empty_name_throws [("A", HVal.str "x")] (HVal.str "v") none "  "
      (by decide)).1⟩

/-! ## C3: case-insensitive lookup, uniqueness, first-seen casing -/

/-- `normalizeValue` is the identity on already-normalized values. -/
theorem normalizeValue_id (v : HVal) : normalizeValue v = v := by
  cases v <;> simp [normalizeValue]

/-- Lower-casing preserves emptiness. -/
theorem strLower_eq_empty_iff (s : String) : strLower s = "" ↔ s = "" := by
  simp only [String.ext_iff]
  show s.data.map Char.toLower = ("" : String).data ↔ s.data = ("" : String).data
  have he : ("" : String).data = [] := rfl
  rw [he]
  simp

/-- A key with a stored value is among the stored keys. -/
theorem mem_keysOf_of_lookupVal (hs : Headers) (k : String) (w : HVal)
    (h : lookupVal hs k = some w) : k ∈ keysOf hs := by
  simp only [lookupVal] at h
  cases hf : hs.find? (fun p => p.1 == k) with
  | none => rw [hf] at h; simp at h
  | some p =>
    have hmem := List.mem_of_find?_eq_some hf
    have hp : p.1 = k := by
      have := List.find?_some hf
      simpa using this
    rw [← hp]
    exact List.mem_map_of_mem _ hmem

/-- Appending a key with a fresh lower-cased form keeps the keys pairwise
distinct. -/
theorem keysLowerDistinct_append (ks : List String) (n : String)
    (hd : keysLowerDistinct ks = true)
    (hnew : ∀ x ∈ ks, strLower x ≠ strLower n) :
    keysLowerDistinct (ks ++ [n]) = true := by
  induction ks with
  | nil => simp [keysLowerDistinct]
  | cons a rest ih =>
    simp only [keysLowerDistinct, Bool.and_eq_true, List.all_eq_true] at hd
    simp only [List.cons_append, keysLowerDistinct, Bool.and_eq_true,
      List.all_eq_true]
    refine ⟨?_, ih hd.2 (fun x hx => hnew x (by simp [hx]))⟩
    intro x hx
    rcases List.mem_append.mp hx with hx1 | hx2
    · exact hd.1 x hx1
    · have hxn : x = n := by simpa using hx2
      subst hxn
      have hna := hnew a (by simp)
      simp only [Bool.not_eq_true', beq_eq_false_iff_ne, ne_eq]
      exact fun he => hna he.symm

/-- Pairwise-distinct lower-cased keys survive on any sublist. -/
theorem keysLowerDistinct_sublist {ks' ks : List String}
    (h : List.Sublist ks' ks)
    (hd : keysLowerDistinct ks = true) : keysLowerDistinct ks' = true := by
  induction h with
  | slnil => rfl
  | cons a h ih =>
    simp only [keysLowerDistinct, Bool.and_eq_true] at hd
    exact ih hd.2
  | cons₂ a h ih =>
    simp only [keysLowerDistinct, Bool.and_eq_true, List.all_eq_true] at hd ⊢
    exact ⟨fun x hx => hd.1 x (h.subset hx), ih hd.2⟩

/-- The container delivered by a successful single-name `set` (the write
cannot fail for a valid name, so the error arm is vacuous). -/
def setRes (hs : Headers) (n : String) (v : HVal) : Headers :=
  match setStr hs (some n) v none with
  | .ok h2 => h2
  | .error _ => hs

/-- Filtering entries preserves the uniqueness invariant. -/
theorem headersWF_filter (hs : Headers) (f : String × HVal → Bool)
    (hd : headersWF hs = true) : headersWF (hs.filter f) = true := by
  have hsub0 : List.Sublist (hs.filter f) hs := List.filter_sublist hs
  have hsub : List.Sublist (keysOf (hs.filter f)) (keysOf hs) := by
    simpa [keysOf] using hsub0.map (fun p : String × HVal => p.1)
  exact keysLowerDistinct_sublist hsub hd

/-- C3 counterexample.  The claim promises `get(M) = v` after `set(N, v)`
for every container; but with `false` stored for `X`, the overwrite policy
blocks the two-argument `set('X','b')`, so `get('X')` still returns the
stored `false`, not `'b'`. -/
theorem headers_case_insensitive_counterexample :
    setStr [("X", HVal.fls)] (some "X") (HVal.str "b") none
      = .ok [("X", HVal.fls)]
    ∧ getHdr [("X", HVal.fls)] "X" = some HVal.fls
    ∧ getHdr [("X", HVal.fls)] "X" ≠ some (HVal.str "b") :=
  ⟨by decide, by decide, by decide⟩

/-- C3 (amended).  For a valid (trimmed) header name `N`, a container whose
stored value for `N` is not the `false` sentinel (so the overwrite policy
permits the two-argument write), and any name `M` that matches `N`
case-insensitively: `set(N, v)` succeeds, `get(M)` then returns `v`; the
uniqueness invariant (at most one stored entry per case-insensitive name)
is preserved; the stored key keeps the casing of the first-seen write (keys
are unchanged when an entry existed, else exactly `N` is appended); and
`delete` also preserves the invariant.  `get` and `has` are read-only, so
they preserve it trivially. -/
theorem headers_case_insensitive_invariant (hs : Headers) (N M P : String)
    (v : HVal) (hN : strTrim N = N) (hval : isValidHeaderName N = true)
    (hWF : headersWF hs = true)
    (hM : strLower (strTrim M) = strLower N)
    (hW : storedAt hs (strLower N) ≠ some HVal.fls) :
    setStr hs (some N) v none = .ok (setRes hs N v)
    ∧ getHdr (setRes hs N v) M = some v
    ∧ headersWF (setRes hs N v) = true
    ∧ keysOf (setRes hs N v)
        = (if (findKey hs (strLower N)).isSome then keysOf hs
           else keysOf hs ++ [N])
    ∧ headersWF (deleteHdr hs P).1 = true := by
  have hvne : N ≠ "" := by
    intro he
    rw [he] at hval
    exact absurd hval (by decide)
  have hlne : strLower N ≠ "" := fun he => hvne ((strLower_eq_empty_iff N).mp he)
  have hnorm : normalizeHeader N = strLower N := by rw [normalizeHeader, hN]
  have hnormM : normalizeHeader M = strLower N := by rw [normalizeHeader, hM]
  have hsetstr : setStr hs (some N) v none = setHeader hs v N none := by
    simp [setStr, hN, hval]
  have hdel : headersWF (deleteHdr hs P).1 = true := by
    simp only [deleteHdr]
    by_cases hP : normalizeHeader P = ""
    · rw [if_pos hP]
      exact hWF
    · rw [if_neg hP]
      cases hfp : findKey hs (normalizeHeader P) with
      | some kp => exact headersWF_filter hs _ hWF
      | none => exact hWF
  cases hk : findKey hs (strLower N) with
  | some k =>
    obtain ⟨hklow, w, hw⟩ := findKey_some_spec hs (strLower N) k hk
    have hwfls : w ≠ HVal.fls := by
      intro he
      apply hW
      simp [storedAt, hk, hw, he]
    have hkeymem : k ∈ keysOf hs := mem_keysOf_of_lookupVal hs k w hw
    have hsh : setHeader hs v N none = .ok (objSet hs k v) := by
      simp only [setHeader, hnorm]
      rw [if_neg hlne, hk]
      simp [hw, normalizeValue_id, hwfls]
    have hres : setRes hs N v = objSet hs k v := by
      simp only [setRes, hsetstr, hsh]
    have hkeys : keysOf (objSet hs k v) = keysOf hs := by
      rw [keysOf_objSet, if_pos hkeymem]
    refine ⟨by rw [hsetstr, hsh, hres], ?_, ?_, ?_, hdel⟩
    · rw [hres]
      simp only [getHdr, hnormM]
      rw [if_neg hlne]
      have hfk2 : findKey (objSet hs k v) (strLower N) = some k := by
        rw [findKey_congr_keys _ hs _ hkeys, hk]
      rw [hfk2]
      exact lookupVal_objSet_self hs k v
    · show keysLowerDistinct (keysOf (setRes hs N v)) = true
      rw [hres, hkeys]
      exact hWF
    · rw [hres, hkeys]
      simp [hk]
  | none =>
    have hfind0 : hs.find? (fun p => strLower p.1 == strLower N) = none := by
      have h2 := hk
      rw [findKey] at h2
      exact Option.map_eq_none'.mp h2
    have hnotmem : ∀ p ∈ hs, p.1 ≠ N := by
      intro p hp he
      have := (findKey_none_iff hs (strLower N)).mp hk p hp
      rw [he] at this
      exact this rfl
    have hsh : setHeader hs v N none = .ok (hs ++ [(N, v)]) := by
      simp only [setHeader, hnorm]
      rw [if_neg hlne, hk]
      simp [normalizeValue_id, objSet_append_of_not_mem hs N v hnotmem]
    have hres : setRes hs N v = hs ++ [(N, v)] := by
      simp only [setRes, hsetstr, hsh]
    have hkeys : keysOf (hs ++ [(N, v)]) = keysOf hs ++ [N] := by
      simp [keysOf]
    refine ⟨by rw [hsetstr, hsh, hres], ?_, ?_, ?_, hdel⟩
    · rw [hres]
      simp only [getHdr, hnormM]
      rw [if_neg hlne]
      have hfk2 : findKey (hs ++ [(N, v)]) (strLower N) = some N := by
        simp [findKey, List.find?_append, hfind0]
      rw [hfk2]
      exact lookupVal_append_self hs N v hnotmem
    · show keysLowerDistinct (keysOf (setRes hs N v)) = true
      rw [hres, hkeys]
      have hfresh : ∀ x ∈ keysOf hs, strLower x ≠ strLower N := by
        intro x hx
        obtain ⟨p, hp, hpx⟩ := List.mem_map.mp hx
        rw [← hpx]
        exact (findKey_none_iff hs (strLower N)).mp hk p hp
      exact keysLowerDistinct_append (keysOf hs) N hWF hfresh
    · rw [hres, hkeys]
      simp [hk]

/-- Witness for C3 (amended): fresh write with a differently-cased read. -/
theorem headers_case_insensitive_invariant_witness :
    strTrim "Foo" = "Foo"
    ∧ getHdr (setRes [] "Foo" (HVal.str "1")) "FOO" = some (HVal.str "1")
    ∧ keysOf (setRes [] "Foo" (HVal.str "1")) = ["Foo"] :=
  ⟨by decide,
    (headers_case_insensitive_invariant [] "Foo" "FOO" "Z" (HVal.str "1")
      (by decide) (by decide) (by decide) (by decide) (by decide)).2.1,
    by
      have h := (headers_case_insensitive_invariant [] "Foo" "FOO" "Z"
        (HVal.str "1") (by decide) (by decide) (by decide) (by decide)
        (by decide)).2.2.2.1
      rw [h]
      decide⟩

/-! ## C6: chain build — synchronous flag, inclusion, ordering -/

/-- Small-step shape of `includedReq`. -/
theorem includedReq_cons {C E : Type} (o : Option (ReqInterceptor C E))
    (rest : List (Option (ReqInterceptor C E))) (cfg : C) :
    includedReq (o :: rest) cfg
      = (match o with
         | some it =>
           if runWhenAllows it cfg then it :: includedReq rest cfg
           else includedReq rest cfg
         | none => includedReq rest cfg) := by
  cases o with
  | none => simp [includedReq]
  | some it =>
    by_cases hr : runWhenAllows it cfg <;>
      simp [includedReq, hr]

/-- The chain-build loop, with its accumulators generalized: the chain grows
by the reversed included entries and the flag is AND-ed with every included
entry's declared synchronicity. -/
theorem buildReqGo_spec {C E : Type} (cfg : C)
    (l : List (Option (ReqInterceptor C E)))
    (chain : List (ReqInterceptor C E)) (flag : Bool) :
    buildReqGo cfg l (chain, flag)
      = ((includedReq l cfg).reverse ++ chain,
         flag && (includedReq l cfg).all (fun it => it.synchronous)) := by
  induction l generalizing chain flag with
  | nil => simp [buildReqGo, includedReq]
  | cons o rest ih =>
    cases o with
    | none =>
      rw [buildReqGo, ih, includedReq_cons]
    | some it =>
      by_cases hr : runWhenAllows it cfg
      · rw [buildReqGo, if_pos hr, ih, includedReq_cons]
        simp [hr, Bool.and_assoc]
      · rw [buildReqGo, if_neg hr, ih, includedReq_cons]
        simp [hr]

/-- The response-chain loop appends live entries in order. -/
theorem buildRespChain_go {R E : Type}
    (l : List (Option (RespInterceptor R E)))
    (acc : List (RespInterceptor R E)) :
    l.foldl (fun acc o => match o with
      | some it => acc ++ [it]
      | none => acc) acc = acc ++ l.filterMap id := by
  induction l generalizing acc with
  | nil => simp
  | cons o rest ih =>
    cases o with
    | none => simp [List.foldl_cons, ih]
    | some it => simp [List.foldl_cons, ih]

/-- C6.  During chain build, the overall synchronous flag is the AND of the
declared `synchronous` of every included request interceptor (an undeclared
or `false` one forces the async path); interceptors whose `runWhen(config)`
returns `false` are excluded; the request chain is the reverse of the
included registration order (last registered runs first); and the response
chain keeps forward registration order. -/
theorem axios_chain_build {C E R : Type}
    (l : List (Option (ReqInterceptor C E))) (cfg : C)
    (lr : List (Option (RespInterceptor R E))) :
    (buildReqChain l cfg).2
        = (includedReq l cfg).all (fun it => it.synchronous)
    ∧ (buildReqChain l cfg).1 = (includedReq l cfg).reverse
    ∧ buildRespChain lr = lr.filterMap id := by
  refine ⟨?_, ?_, ?_⟩
  · rw [buildReqChain, buildReqGo_spec]
    simp
  · rw [buildReqChain, buildReqGo_spec]
    simp
  · rw [buildRespChain, buildRespChain_go]
    simp

/-! ## C1: sync fast path vs async chain path -/

